import Mathlib

/-!
Shallow embedding of the length-summing scripts (`sum-lengths.py`,
`length_utils.py`).  Python floats are modelled as rational numbers
together with an idealized IEEE-754 binary64 rounding function `fl`
(round to nearest, ties to even, 53-bit significand, unbounded exponent:
no overflow or subnormal handling is needed on the values that occur
here).  Python's regex scanning is modelled by hand-written scanners
over `List Char` that follow the source patterns alternative by
alternative, including the backtracking order of the alternations.
Character classes are modelled over ASCII (all inputs of interest are
ASCII).
-/

namespace SumLengths

/-- The two parse-error kinds of the spec's error taxonomy: the two
`ValueError` raise sites of `parse_number` both carry "invalid number"
messages, the raise site in `convert_to_inches` carries
`"Unsupported unit: {unit}"` (we keep the offending unit). -/
inductive ParseError where
  | invalidNumber : ParseError
  | unsupportedUnit : String → ParseError
deriving DecidableEq, Repr

/-- Round to nearest integer, ties to even: the rounding used by both
IEEE-754 binary64 operations and Python's built-in `round`. -/
def rne (x : ℚ) : ℤ :=
  if x - ⌊x⌋ < 1/2 then ⌊x⌋
  else if 1/2 < x - ⌊x⌋ then ⌊x⌋ + 1
  else if 2 ∣ ⌊x⌋ then ⌊x⌋ else ⌊x⌋ + 1

/-- Round a positive rational to the nearest binary64 value
(53-bit significand, round to nearest, ties to even). -/
def flPos (q : ℚ) : ℚ :=
  (rne (q * 2 ^ ((52 : ℤ) - Int.log 2 q)) : ℚ) * 2 ^ (Int.log 2 q - 52)

/-- Round a rational to the nearest binary64 value (idealized: unbounded
exponent).  This is the value a Python float holding `q`'s correctly
rounded image carries. -/
def fl (q : ℚ) : ℚ :=
  if q = 0 then 0 else if q < 0 then -flPos (-q) else flPos q

/-- Python float addition: correctly rounded exact sum. -/
def pyAdd (a b : ℚ) : ℚ := fl (a + b)

/-- Python float subtraction: correctly rounded exact difference. -/
def pySub (a b : ℚ) : ℚ := fl (a - b)

/-- Python float multiplication: correctly rounded exact product. -/
def pyMul (a b : ℚ) : ℚ := fl (a * b)

/-- Python float division (also int/int true division): correctly
rounded exact quotient. -/
def pyDiv (a b : ℚ) : ℚ := fl (a / b)

/-- Python `round` on a float value, returning an int: round half to
even on the exact value. -/
def pyRound (x : ℚ) : ℤ := rne x

/-- Constant `MM_PER_INCH = 25.4` of `sum-lengths.py` / `length_utils.py`: the
binary64 image of the decimal literal `25.4`. -/
def MM_PER_INCH : ℚ := fl (127/5)

/-- The character class `\d` (ASCII). -/
def isDigitChar (c : Char) : Bool := c.isDigit

/-- The character class `\s` (ASCII whitespace, as Python's `\s` on the
ASCII range: space, tab, newline, carriage return, vertical tab, form
feed). -/
def isWsChar (c : Char) : Bool :=
  c = ' ' || c = '\t' || c = '\n' || c = '\r' || c = '\x0b' || c = '\x0c'

/-- Maximal munch of `\d*`: longest digit run and the rest. -/
def digitSpan (cs : List Char) : List Char × List Char :=
  (cs.takeWhile isDigitChar, cs.dropWhile isDigitChar)

/-- Maximal munch of `\s*`: longest whitespace run and the rest. -/
def wsSpan (cs : List Char) : List Char × List Char :=
  (cs.takeWhile isWsChar, cs.dropWhile isWsChar)

/-- Python `int()` on a digit string. -/
def decimalValue (ds : List Char) : ℕ :=
  ds.foldl (fun a c => 10 * a + (c.toNat - '0'.toNat)) 0

/-- Python `str.strip()` (ASCII whitespace). -/
def pyStrip (cs : List Char) : List Char :=
  ((cs.dropWhile isWsChar).reverse.dropWhile isWsChar).reverse

/-- Shape of a successful match of `MIXED_NUMBER_PATTERN`'s alternation:
the captured digit strings of the `2 1/2` alternative, the `1/2`
alternative, or the `2.5` alternative (integer part plus optional
fractional digits). -/
inductive NumForm where
  | mixed : List Char → List Char → List Char → NumForm
  | frac : List Char → List Char → NumForm
  | dec : List Char → Option (List Char) → NumForm
deriving DecidableEq, Repr

/-- The optional `[-+]?` sign. -/
def signSpan (cs : List Char) : Option Char × List Char :=
  match cs with
  | c :: rest => if c = '-' || c = '+' then (some c, rest) else (none, cs)
  | [] => (none, [])

/-- Matcher for `\s*$`: the rest of the input is all whitespace. -/
def wsToEnd (cs : List Char) : Bool := (wsSpan cs).2.isEmpty

/-- First alternative of `MIXED_NUMBER_PATTERN`:
`(?P<whole>\d+)\s+(?P<num>\d+)/(?P<den>\d+)` followed by `\s*$`.
All the quantifiers here are forced, so maximal munch is exact. -/
def mixedAlt (cs : List Char) : Option NumForm :=
  let (w, r1) := digitSpan cs
  if w.isEmpty then none else
  let (s1, r2) := wsSpan r1
  if s1.isEmpty then none else
  let (n, r3) := digitSpan r2
  if n.isEmpty then none else
  match r3 with
  | '/' :: r4 =>
    let (d, r5) := digitSpan r4
    if d.isEmpty then none else
    if wsToEnd r5 then some (.mixed w n d) else none
  | _ => none

/-- Second alternative: `(?P<num2>\d+)/(?P<den2>\d+)` followed by `\s*$`. -/
def fracAlt (cs : List Char) : Option NumForm :=
  let (n, r1) := digitSpan cs
  if n.isEmpty then none else
  match r1 with
  | '/' :: r2 =>
    let (d, r3) := digitSpan r2
    if d.isEmpty then none else
    if wsToEnd r3 then some (.frac n d) else none
  | _ => none

/-- Third alternative: `(?P<float>\d+(?:\.\d+)?)` followed by `\s*$`.
The optional group is greedy: with the fractional digits first, then
without them. -/
def decAlt (cs : List Char) : Option NumForm :=
  let (ip, r1) := digitSpan cs
  if ip.isEmpty then none else
  match r1 with
  | '.' :: r2 =>
    let (fp, r3) := digitSpan r2
    if fp.isEmpty then (if wsToEnd r1 then some (.dec ip none) else none)
    else if wsToEnd r3 then some (.dec ip (some fp))
    else if wsToEnd r1 then some (.dec ip none) else none
  | _ => if wsToEnd r1 then some (.dec ip none) else none

/-- Model of `MIXED_NUMBER_PATTERN.match`: `^\s*(?P<sign>[-+]?)\s*( ... )\s*$`,
with the three alternatives tried in the pattern's order. -/
def numberMatch (cs : List Char) : Option (Option Char × NumForm) :=
  let r1 := (wsSpan cs).2
  let (sgn, r2) := signSpan r1
  let r3 := (wsSpan r2).2
  match mixedAlt r3 with
  | some f => some (sgn, f)
  | none =>
    match fracAlt r3 with
    | some f => some (sgn, f)
    | none =>
      match decAlt r3 with
      | some f => some (sgn, f)
      | none => none

/-- Exact value of the decimal literal captured by the `float` group
(Python's `float(...)` then rounds it, see `parse_number`). -/
def decLiteralValue (ip : List Char) (fp : Option (List Char)) : ℚ :=
  (decimalValue ip : ℚ) +
    match fp with
    | none => 0
    | some f => (decimalValue f : ℚ) / 10 ^ f.length

/-- Function `parse_number` of `sum-lengths.py`: match `MIXED_NUMBER_PATTERN`,
then branch on which group matched; a zero denominator raises before
any division; `sign * (...)` by `±1.0` is exact in binary64. -/
def parse_number (s : String) : Except ParseError ℚ :=
  match numberMatch s.toList with
  | none => .error .invalidNumber
  | some (sgn, f) =>
    let sign : ℚ := if sgn = some '-' then -1 else 1
    match f with
    | .mixed w n d =>
      let whole := decimalValue w
      let numerator := decimalValue n
      let denominator := decimalValue d
      if denominator = 0 then .error .invalidNumber
      else .ok (sign * pyAdd (fl whole) (pyDiv numerator denominator))
    | .frac n d =>
      let numerator := decimalValue n
      let denominator := decimalValue d
      if denominator = 0 then .error .invalidNumber
      else .ok (sign * pyDiv numerator denominator)
    | .dec ip fp => .ok (sign * fl (decLiteralValue ip fp))

/-- First `val` alternative of `UNIT_PAIR_PATTERN`, with its greedy
optional group taken: `[-+]?\d+\s+\d+/\d+`.  Returns the matched slice
and the rest. -/
def valMixedFrac (cs : List Char) : Option (List Char × List Char) :=
  let (sgn, r1) := signSpan cs
  let (a, r2) := digitSpan r1
  if a.isEmpty then none else
  let (s1, r3) := wsSpan r2
  if s1.isEmpty then none else
  let (b, r4) := digitSpan r3
  if b.isEmpty then none else
  match r4 with
  | '/' :: r5 =>
    let (c, r6) := digitSpan r5
    if c.isEmpty then none
    else some (sgn.toList ++ a ++ s1 ++ b ++ '/' :: c, r6)
  | _ => none

/-- First `val` alternative with its optional group dropped:
`[-+]?\d+`. -/
def valPlain (cs : List Char) : Option (List Char × List Char) :=
  let (sgn, r1) := signSpan cs
  let (a, r2) := digitSpan r1
  if a.isEmpty then none else some (sgn.toList ++ a, r2)

/-- Second `val` alternative: `[-+]?\d*\.\d+`. -/
def valDecimal (cs : List Char) : Option (List Char × List Char) :=
  let (sgn, r1) := signSpan cs
  let (a, r2) := digitSpan r1
  match r2 with
  | '.' :: r3 =>
    let (b, r4) := digitSpan r3
    if b.isEmpty then none
    else some (sgn.toList ++ a ++ '.' :: b, r4)
  | _ => none

/-- Third `val` alternative: `[-+]?\d+/\d+`. -/
def valSimpleFrac (cs : List Char) : Option (List Char × List Char) :=
  let (sgn, r1) := signSpan cs
  let (a, r2) := digitSpan r1
  if a.isEmpty then none else
  match r2 with
  | '/' :: r3 =>
    let (b, r4) := digitSpan r3
    if b.isEmpty then none else some (sgn.toList ++ a ++ '/' :: b, r4)
  | _ => none

/-- Case-insensitive literal match: consume `pat` from the front of
the input, or fail.  This models `re.I` by ASCII lowering only;
CPython's Unicode case-insensitive matching (for example `ı` U+0131 or
`İ` U+0130 matching a literal `i`) is outside this ASCII model. -/
def ciDrop (pat : List Char) (cs : List Char) : Option (List Char) :=
  match pat, cs with
  | [], rest => some rest
  | p :: ps, c :: rest => if c.toLower = p then ciDrop ps rest else none
  | _ :: _, [] => none

/-- The `unit` alternation of `UNIT_PAIR_PATTERN`, expanded in the
engine's trial order (each greedy `s?` / `t?` first with the optional
letter, then without):
`inches?|in|["″]|feet?|ft|['′]|millimeters?|mm|centimeters?|cm|meters?|m`. -/
def unitTokens : List String :=
  ["inches", "inche", "in", "\"", "″",
   "feet", "fee", "ft", "'", "′",
   "millimeters", "millimeter", "mm",
   "centimeters", "centimeter", "cm",
   "meters", "meter", "m"]

/-- Match the `unit` group: first alternative (in the pattern's order)
that matches case-insensitively wins; returns the matched slice of the
input and the rest. -/
def matchUnitAux (ts : List String) (cs : List Char) :
    Option (List Char × List Char) :=
  match ts with
  | [] => none
  | t :: rest =>
    match ciDrop t.toList cs with
    | some r => some (cs.take t.toList.length, r)
    | none => matchUnitAux rest cs

/-- Match the `unit` group of `UNIT_PAIR_PATTERN`. -/
def matchUnit (cs : List Char) : Option (List Char × List Char) :=
  matchUnitAux unitTokens cs

/-- Try one `val` candidate followed by `\s*` and the `unit` group.
The unit alternatives never start with whitespace, so maximal munch of
`\s*` is exact. -/
def valThenUnit (v : Option (List Char × List Char)) :
    Option (List Char × List Char × List Char) :=
  match v with
  | none => none
  | some (val, r) =>
    match matchUnit (wsSpan r).2 with
    | some (u, r2) => some (val, u, r2)
    | none => none

/-- Match `UNIT_PAIR_PATTERN` at the head of the input: the `val`
candidates are tried in the engine's backtracking order (first
alternative with its greedy optional group, first alternative without
it, second alternative, third alternative). -/
def matchPair (cs : List Char) : Option (List Char × List Char × List Char) :=
  valThenUnit (valMixedFrac cs) <|> valThenUnit (valPlain cs) <|>
    valThenUnit (valDecimal cs) <|> valThenUnit (valSimpleFrac cs)

/-- Model of `UNIT_PAIR_PATTERN.finditer`: scan left to right; at each position
try a match; on success continue after it, otherwise advance one
character.  Fuel is the input length (every match consumes at least one
character). -/
def findPairsAux (fuel : ℕ) (cs : List Char) :
    List (List Char × List Char) :=
  match fuel, cs with
  | 0, _ => []
  | _ + 1, [] => []
  | fuel + 1, c :: rest =>
    match matchPair (c :: rest) with
    | some (v, u, r) => (v, u) :: findPairsAux fuel r
    | none => findPairsAux fuel rest

/-- All `(val, unit)` pair matches of a term, in order. -/
def findPairs (cs : List Char) : List (List Char × List Char) :=
  findPairsAux cs.length cs

/-- The float value `1.0/MM_PER_INCH` computed at module load. -/
def mmFactor : ℚ := pyDiv 1 MM_PER_INCH

/-- The float value `1.0/2.54` computed at module load. -/
def cmFactor : ℚ := pyDiv 1 (fl (127/50))

/-- The float literal `39.37007874015748`. -/
def mFactor : ℚ := fl (3937007874015748 / 100000000000000)

/-- Table `UNIT_FACTORS` of `sum-lengths.py` as an association list. -/
def UNIT_FACTORS : List (String × ℚ) :=
  [("inch", 1), ("inches", 1), ("in", 1), ("\"", 1), ("″", 1),
   ("foot", 12), ("feet", 12), ("ft", 12), ("'", 12), ("′", 12),
   ("millimeter", mmFactor), ("millimeters", mmFactor), ("mm", mmFactor),
   ("centimeter", cmFactor), ("centimeters", cmFactor), ("cm", cmFactor),
   ("meter", mFactor), ("meters", mFactor), ("m", mFactor)]

/-- Lookup `UNIT_FACTORS.get(unit)`. -/
def unitFactor (u : String) : Option ℚ :=
  UNIT_FACTORS.lookup u

/-- The two quote-glyph normalization steps of `convert_to_inches`:
`\"` and `″` become `inches`, `'` and `′` become `feet`. -/
def normalizeQuoteUnit (unit : String) : String :=
  let unit := if unit = "\"" || unit = "″" then "inches" else unit
  if unit = "'" || unit = "′" then "feet" else unit

/-- One iteration of the accumulation loop of `convert_to_inches`:
parse the `val` group, lowercase the `unit` group, normalize the quote
glyphs, look up the conversion factor, and add `value * factor` to the
running total (all float operations correctly rounded).  The lowering
models `str.lower()` per character on ASCII; full Unicode case
mappings (such as `İ` lowering to the two code points `i̇`) are outside
this ASCII model. -/
def accumPair (tot : ℚ) (p : List Char × List Char) :
    Except ParseError ℚ :=
  match parse_number (String.mk p.1) with
  | .error e => .error e
  | .ok value =>
    let unit := normalizeQuoteUnit (String.mk (p.2.map Char.toLower))
    match unitFactor unit with
    | none => .error (.unsupportedUnit unit)
    | some factor => .ok (pyAdd tot (pyMul value factor))

/-- Function `convert_to_inches` of `sum-lengths.py`: strip the term, scan for
all `(val, unit)` pairs and accumulate them; if none matched, parse the
whole stripped term as a bare number of inches. -/
def convert_to_inches (term : String) : Except ParseError ℚ :=
  let t := pyStrip term.toList
  let pairs := findPairs t
  if pairs.isEmpty then parse_number (String.mk t)
  else pairs.foldlM accumPair 0

/-- The `numerator` computed by `format_fractional_inches`:
`round((abs_value - whole) * denominator)`, where `whole = int(abs_value)`
(truncation; the argument is nonnegative, so it is the floor), the int
operands are converted to float (`fl`) by the mixed int/float
arithmetic, and `round` is Python's round-half-to-even. -/
def ffiNumerator (value_inches : ℚ) (denominator : ℤ) : ℤ :=
  pyRound (pyMul (pySub |value_inches| (fl ⌊|value_inches|⌋)) (fl denominator))

/-- Function `format_fractional_inches` of `sum-lengths.py` / `length_utils.py`
(identical bodies).  `denominator` is the script's
`FRACTIONAL_DENOMINATOR = 16` at every call site. -/
def format_fractional_inches (value_inches : ℚ) (denominator : ℤ) : String :=
  let sign := if value_inches < 0 then "-" else ""
  let whole : ℤ := ⌊|value_inches|⌋
  let numerator : ℤ := ffiNumerator value_inches denominator
  -- carry when the rounded numerator reaches the denominator
  let whole := if numerator = denominator then whole + 1 else whole
  let numerator := if numerator = denominator then 0 else numerator
  if numerator = 0 then sign ++ toString whole ++ "\""
  else
    let divisor : ℤ := Int.gcd numerator denominator
    let simplified_num := Int.fdiv numerator divisor
    let simplified_den := Int.fdiv denominator divisor
    if whole ≠ 0 then
      sign ++ toString whole ++ " " ++ toString simplified_num ++ "/" ++
        toString simplified_den ++ "\""
    else
      sign ++ toString simplified_num ++ "/" ++ toString simplified_den ++ "\""

/-- Function `format_millimeters` of `length_utils.py` (and the
`round(total_mm)` output line of `sum-lengths.py`'s `main`):
`f"{round(value_inches * mm_per_inch)} mm"`.  `mm_per_inch` is
`MM_PER_INCH` at every call site. -/
def format_millimeters (value_inches : ℚ) (mm_per_inch : ℚ) : String :=
  toString (pyRound (pyMul value_inches mm_per_inch)) ++ " mm"

/-- Modelled from the spec: "round to nearest integer
(round-half-away-from-zero)": a value whose fractional part is exactly
one half rounds away from zero. -/
def specRoundHalfAwayFromZero (q : ℚ) : ℤ :=
  if 0 ≤ q then ⌊q + 1/2⌋ else -⌊-q + 1/2⌋

/-- Modelled from the spec (design-note wording): "round-half-to-even
... via native rounding": nearest integer, a tie going to the even
neighbour. -/
def specRoundHalfToEven (q : ℚ) : ℤ :=
  if q - ⌊q⌋ = 1/2 then (if 2 ∣ ⌊q⌋ then ⌊q⌋ else ⌊q⌋ + 1)
  else if q - ⌊q⌋ < 1/2 then ⌊q⌋ else ⌊q⌋ + 1

lemma rne_intCast (n : ℤ) : rne (n : ℚ) = n := by
  rw [rne]
  norm_num

lemma rne_le (x : ℚ) : (rne x : ℚ) ≤ x + 1/2 := by
  have h1 := Int.floor_le x
  rw [rne]
  split_ifs <;> push_cast <;> linarith

lemma rne_nonneg (x : ℚ) (h : 0 ≤ x) : 0 ≤ rne x := by
  have h0 : 0 ≤ ⌊x⌋ := Int.floor_nonneg.mpr h
  rw [rne]
  split_ifs <;> omega

lemma two_zpow_pos (e : ℤ) : (0 : ℚ) < 2 ^ e :=
  zpow_pos two_pos e

lemma log2_eq_of (q : ℚ) (e : ℤ) (h1 : (2:ℚ) ^ e ≤ q) (h2 : q < 2 ^ (e + 1)) :
    Int.log 2 q = e := by
  have hq : 0 < q := lt_of_lt_of_le (two_zpow_pos e) h1
  have hb1 : (2:ℚ) ^ Int.log 2 q ≤ q := by
    have := Int.zpow_log_le_self (b := 2) (R := ℚ) (by norm_num) hq
    simpa using this
  have hb2 : q < (2:ℚ) ^ (Int.log 2 q + 1) := by
    have := Int.lt_zpow_succ_log_self (b := 2) (R := ℚ) (by norm_num) q
    simpa using this
  have e1 : e < Int.log 2 q + 1 :=
    (zpow_lt_zpow_iff_right₀ (by norm_num : (1:ℚ) < 2)).mp (lt_of_le_of_lt h1 hb2)
  have e2 : Int.log 2 q < e + 1 :=
    (zpow_lt_zpow_iff_right₀ (by norm_num : (1:ℚ) < 2)).mp (lt_of_le_of_lt hb1 h2)
  omega

lemma fl_eq_of (q : ℚ) (e m : ℤ) (h1 : (2:ℚ) ^ e ≤ q) (h2 : q < 2 ^ (e + 1))
    (h3 : rne (q * 2 ^ ((52 : ℤ) - e)) = m) : fl q = (m : ℚ) * 2 ^ (e - 52) := by
  have hq : 0 < q := lt_of_lt_of_le (two_zpow_pos e) h1
  rw [fl, if_neg hq.ne', if_neg (not_lt.mpr hq.le), flPos, log2_eq_of q e h1 h2, h3]

lemma fl_zero : fl 0 = 0 := by
  rw [fl]
  norm_num

lemma fl_neg (q : ℚ) : fl (-q) = -fl q := by
  rcases lt_trichotomy q 0 with h | h | h
  · rw [fl, fl, if_neg h.ne, if_pos h, if_neg (by linarith : ¬ -q = 0),
      if_neg (by linarith : ¬ -q < 0), neg_neg]
  · simp [h, fl_zero]
  · rw [fl, fl, if_neg h.ne', if_neg (by linarith : ¬ q < 0),
      if_neg (by linarith : ¬ -q = 0), if_pos (by linarith : -q < 0), neg_neg]

lemma fl_nonneg (q : ℚ) (h : 0 ≤ q) : 0 ≤ fl q := by
  rcases h.eq_or_lt with h0 | h0
  · rw [← h0, fl_zero]
  · rw [fl, if_neg h0.ne', if_neg (not_lt.mpr h0.le), flPos]
    have hx : 0 ≤ q * 2 ^ ((52 : ℤ) - Int.log 2 q) :=
      mul_nonneg h0.le (two_zpow_pos _).le
    exact mul_nonneg (by exact_mod_cast rne_nonneg _ hx) (two_zpow_pos _).le

lemma flPos_dyadic (m k : ℤ) (h0 : 0 < m) (h : m < 2 ^ 53) :
    flPos ((m : ℚ) * 2 ^ k) = (m : ℚ) * 2 ^ k := by
  set q : ℚ := (m : ℚ) * 2 ^ k with hqdef
  have hm : (0 : ℚ) < (m : ℚ) := by exact_mod_cast h0
  have hq : 0 < q := mul_pos hm (two_zpow_pos k)
  have hb1 : (2:ℚ) ^ Int.log 2 q ≤ q := by
    have := Int.zpow_log_le_self (b := 2) (R := ℚ) (by norm_num) hq
    simpa using this
  have hb2 : q < (2:ℚ) ^ (Int.log 2 q + 1) := by
    have := Int.lt_zpow_succ_log_self (b := 2) (R := ℚ) (by norm_num) q
    simpa using this
  set e : ℤ := Int.log 2 q with hedef
  have hqlt : q < (2:ℚ) ^ (k + 53) := by
    have hmq : (m : ℚ) < 2 ^ (53 : ℕ) := by exact_mod_cast h
    calc q < (2:ℚ) ^ (53 : ℕ) * 2 ^ k :=
          (mul_lt_mul_of_pos_right hmq (two_zpow_pos k))
    _ = (2:ℚ) ^ (k + 53) := by
          rw [← zpow_natCast (2:ℚ) 53, ← zpow_add₀ (by norm_num : (2:ℚ) ≠ 0)]
          ring_nf
  have he : e ≤ k + 52 := by
    have : e < k + 53 :=
      (zpow_lt_zpow_iff_right₀ (by norm_num : (1:ℚ) < 2)).mp
        (lt_of_le_of_lt hb1 hqlt)
    omega
  have hj : 0 ≤ k + 52 - e := by omega
  have hx : q * 2 ^ ((52 : ℤ) - e) = ((m * 2 ^ (k + 52 - e).toNat : ℤ) : ℚ) := by
    push_cast
    rw [← zpow_natCast (2:ℚ) (k + 52 - e).toNat, Int.toNat_of_nonneg hj, hqdef,
      mul_assoc, ← zpow_add₀ (by norm_num : (2:ℚ) ≠ 0)]
    ring_nf
  rw [flPos, ← hedef, hx, rne_intCast]
  push_cast
  rw [← zpow_natCast (2:ℚ) (k + 52 - e).toNat, Int.toNat_of_nonneg hj,
    mul_assoc, ← zpow_add₀ (by norm_num : (2:ℚ) ≠ 0)]
  ring_nf

lemma fl_dyadic_pos (m k : ℤ) (h0 : 0 < m) (h1 : m < 2 ^ 53) :
    fl ((m : ℚ) * 2 ^ k) = (m : ℚ) * 2 ^ k := by
  have hq : (0:ℚ) < (m : ℚ) * 2 ^ k := by
    have : (0:ℚ) < (m : ℚ) := by exact_mod_cast h0
    exact mul_pos this (two_zpow_pos k)
  rw [fl, if_neg hq.ne', if_neg (not_lt.mpr hq.le), flPos_dyadic m k h0 h1]

lemma fl_dyadic (m k : ℤ) (h : |m| < 2 ^ 53) : fl ((m : ℚ) * 2 ^ k) = (m : ℚ) * 2 ^ k := by
  rcases lt_trichotomy m 0 with hm | hm | hm
  · have h1 : -m < 2 ^ 53 := by
      rcases abs_lt.mp h with ⟨_, _⟩
      omega
    have h2 : ((m : ℚ) * 2 ^ k) = -(((-m : ℤ) : ℚ) * 2 ^ k) := by push_cast; ring
    rw [h2, fl_neg, fl_dyadic_pos (-m) k (by omega) h1]
  · subst hm; simp [fl_zero]
  · have h1 : m < 2 ^ 53 := by
      rcases abs_lt.mp h with ⟨_, _⟩
      omega
    exact fl_dyadic_pos m k hm h1

lemma fl_le_two_zpow (q : ℚ) (k : ℤ) (h0 : 0 ≤ q) (h : q ≤ 2 ^ k) :
    fl q ≤ 2 ^ k := by
  rcases h0.eq_or_lt with h1 | h1
  · rw [← h1, fl_zero]
    exact (two_zpow_pos k).le
  have hb1 : (2:ℚ) ^ Int.log 2 q ≤ q := by
    have := Int.zpow_log_le_self (b := 2) (R := ℚ) (by norm_num) h1
    simpa using this
  set e : ℤ := Int.log 2 q with hedef
  have he : e ≤ k :=
    (zpow_le_zpow_iff_right₀ (by norm_num : (1:ℚ) < 2)).mp (le_trans hb1 h)
  have hj : 0 ≤ 52 + k - e := by omega
  set n : ℤ := 2 ^ (52 + k - e).toNat with hndef
  have hnq : (n : ℚ) = 2 ^ ((52 : ℤ) + k - e) := by
    rw [hndef]
    push_cast
    rw [← zpow_natCast (2:ℚ) (52 + k - e).toNat, Int.toNat_of_nonneg hj]
  have hx : q * 2 ^ ((52 : ℤ) - e) ≤ (n : ℚ) := by
    rw [hnq]
    calc q * 2 ^ ((52 : ℤ) - e) ≤ 2 ^ k * 2 ^ ((52 : ℤ) - e) :=
          mul_le_mul_of_nonneg_right h (two_zpow_pos _).le
    _ = 2 ^ ((52 : ℤ) + k - e) := by
          rw [← zpow_add₀ (by norm_num : (2:ℚ) ≠ 0)]
          ring_nf
  have hrle : rne (q * 2 ^ ((52 : ℤ) - e)) ≤ n := by
    have h2 := rne_le (q * 2 ^ ((52 : ℤ) - e))
    have h3 : (rne (q * 2 ^ ((52 : ℤ) - e)) : ℚ) < (n : ℚ) + 1 := by linarith
    exact_mod_cast Int.lt_add_one_iff.mp (by exact_mod_cast h3)
  rw [fl, if_neg h1.ne', if_neg (not_lt.mpr h1.le), flPos, ← hedef]
  calc (rne (q * 2 ^ ((52 : ℤ) - e)) : ℚ) * 2 ^ (e - 52)
      ≤ (n : ℚ) * 2 ^ (e - 52) := by
        apply mul_le_mul_of_nonneg_right _ (two_zpow_pos _).le
        exact_mod_cast hrle
  _ = 2 ^ k := by
        rw [hnq, ← zpow_add₀ (by norm_num : (2:ℚ) ≠ 0)]
        ring_nf

lemma fl_eq_self (q : ℚ) (m k : ℤ) (hq : q = (m : ℚ) * 2 ^ k) (h : |m| < 2 ^ 53) :
    fl q = q := by rw [hq, fl_dyadic m k h]

/-- The head of the list (if any) fails the predicate. -/
def headNot (p : Char → Bool) : List Char → Prop
  | [] => True
  | c :: _ => p c = false

lemma takeWhile_append_of (p : Char → Bool) (xs ys : List Char)
    (hx : ∀ c ∈ xs, p c = true) (hy : headNot p ys) :
    (xs ++ ys).takeWhile p = xs := by
  induction xs with
  | nil =>
    simp only [List.nil_append]
    cases ys with
    | nil => rfl
    | cons y t =>
      have hy' : p y = false := hy
      simp [List.takeWhile_cons, hy']
  | cons c t ih =>
    rw [List.cons_append, List.takeWhile_cons, hx c (by simp), if_pos rfl,
      ih (fun a ha => hx a (by simp [ha]))]

lemma dropWhile_append_of (p : Char → Bool) (xs ys : List Char)
    (hx : ∀ c ∈ xs, p c = true) (hy : headNot p ys) :
    (xs ++ ys).dropWhile p = ys := by
  induction xs with
  | nil =>
    simp only [List.nil_append]
    cases ys with
    | nil => rfl
    | cons y t =>
      have hy' : p y = false := hy
      simp [List.dropWhile_cons, hy']
  | cons c t ih =>
    rw [List.cons_append, List.dropWhile_cons, hx c (by simp)]
    exact ih (fun a ha => hx a (by simp [ha]))

lemma digitSpan_append (ds rest : List Char) (h : ∀ c ∈ ds, isDigitChar c = true)
    (hr : headNot isDigitChar rest) : digitSpan (ds ++ rest) = (ds, rest) := by
  rw [digitSpan, takeWhile_append_of _ _ _ h hr, dropWhile_append_of _ _ _ h hr]

lemma wsSpan_append (ws rest : List Char) (h : ∀ c ∈ ws, isWsChar c = true)
    (hr : headNot isWsChar rest) : wsSpan (ws ++ rest) = (ws, rest) := by
  rw [wsSpan, takeWhile_append_of _ _ _ h hr, dropWhile_append_of _ _ _ h hr]

lemma digit_not_ws (c : Char) (h : isDigitChar c = true) : isWsChar c = false := by
  by_contra hc
  rw [Bool.not_eq_false, isWsChar] at hc
  simp only [Bool.or_eq_true, decide_eq_true_eq] at hc
  rcases hc with ((((h1 | h1) | h1) | h1) | h1) | h1 <;> subst h1 <;> simp [isDigitChar] at h

lemma digit_not_sign (c : Char) (h : isDigitChar c = true) :
    (c = '-' || c = '+') = false := by
  by_contra hc
  rw [Bool.not_eq_false, Bool.or_eq_true, decide_eq_true_eq, decide_eq_true_eq] at hc
  rcases hc with h1 | h1 <;> subst h1 <;> simp [isDigitChar] at h

lemma digit_not_slash (c : Char) (h : isDigitChar c = true) : c ≠ '/' := by
  intro h1
  subst h1
  simp [isDigitChar] at h

lemma headNot_digits (ds rest : List Char) (hd : ds ≠ [])
    (h : ∀ c ∈ ds, isDigitChar c = true) : headNot isWsChar (ds ++ rest) := by
  cases ds with
  | nil => exact absurd rfl hd
  | cons c t => exact digit_not_ws c (h c (by simp))

lemma wsSpan_of_headNot (cs : List Char) (h : headNot isWsChar cs) :
    wsSpan cs = ([], cs) := by
  cases cs with
  | nil => rfl
  | cons c t =>
    have h' : isWsChar c = false := h
    rw [wsSpan, List.takeWhile_cons, h', List.dropWhile_cons, h']
    simp

lemma digitSpan_all (ds : List Char) (h : ∀ c ∈ ds, isDigitChar c = true) :
    digitSpan ds = (ds, []) := by
  have := digitSpan_append ds [] h trivial
  simpa using this

lemma signSpan_of_digit (cs : List Char) (hne : cs ≠ [])
    (h : ∀ c ∈ cs, isDigitChar c = true) : signSpan cs = (none, cs) := by
  cases cs with
  | nil => exact absurd rfl hne
  | cons c t =>
    have hd := h c (by simp)
    rw [signSpan, digit_not_sign c hd]
    simp

/-- Lemma: `mixedAlt` on a well-formed `W N/D` input captures the three digit
strings. -/
lemma mixedAlt_form (ws ns ds : List Char)
    (hw : ws ≠ []) (hwd : ∀ c ∈ ws, isDigitChar c = true)
    (hn : ns ≠ []) (hnd : ∀ c ∈ ns, isDigitChar c = true)
    (hd : ds ≠ []) (hdd : ∀ c ∈ ds, isDigitChar c = true) :
    mixedAlt (ws ++ ' ' :: (ns ++ '/' :: ds)) = some (.mixed ws ns ds) := by
  have d1 : digitSpan (ws ++ ' ' :: (ns ++ '/' :: ds)) = (ws, ' ' :: (ns ++ '/' :: ds)) :=
    digitSpan_append ws _ hwd (by exact rfl)
  have w1 : wsSpan (' ' :: (ns ++ '/' :: ds)) = ([' '], ns ++ '/' :: ds) := by
    have := wsSpan_append [' '] (ns ++ '/' :: ds) (by simp [isWsChar])
      (headNot_digits ns _ hn hnd)
    simpa using this
  have d2 : digitSpan (ns ++ '/' :: ds) = (ns, '/' :: ds) :=
    digitSpan_append ns _ hnd (by exact rfl)
  have d3 : digitSpan ds = (ds, []) := digitSpan_all ds hdd
  have hw' : ws.isEmpty = false := by cases ws with
    | nil => exact absurd rfl hw
    | cons c t => rfl
  have hn' : ns.isEmpty = false := by cases ns with
    | nil => exact absurd rfl hn
    | cons c t => rfl
  have hd' : ds.isEmpty = false := by cases ds with
    | nil => exact absurd rfl hd
    | cons c t => rfl
  have tw : List.takeWhile isWsChar (' ' :: (ns ++ '/' :: ds)) = [' '] :=
    congrArg Prod.fst w1
  have dw : List.dropWhile isWsChar (' ' :: (ns ++ '/' :: ds)) = ns ++ '/' :: ds :=
    congrArg Prod.snd w1
  simp only [mixedAlt, d1, hw', wsSpan, tw, dw, d2, hn', d3, hd', wsToEnd,
    List.takeWhile_nil, List.dropWhile_nil]
  simp

/-- Matching `MIXED_NUMBER_PATTERN` against a well-formed mixed number
`[sign]W N/D` lands in the first alternative with the three digit
strings captured. -/
lemma numberMatch_mixedForm (sgn : Option Char)
    (hs : sgn = none ∨ sgn = some '+' ∨ sgn = some '-')
    (ws ns ds : List Char) (hw : ws ≠ []) (hwd : ∀ c ∈ ws, isDigitChar c = true)
    (hn : ns ≠ []) (hnd : ∀ c ∈ ns, isDigitChar c = true)
    (hd : ds ≠ []) (hdd : ∀ c ∈ ds, isDigitChar c = true) :
    numberMatch (sgn.toList ++ ws ++ ' ' :: (ns ++ '/' :: ds)) =
      some (sgn, .mixed ws ns ds) := by
  have hmix := mixedAlt_form ws ns ds hw hwd hn hnd hd hdd
  have hws : headNot isWsChar (ws ++ ' ' :: (ns ++ '/' :: ds)) :=
    headNot_digits ws _ hw hwd
  have e1 : wsSpan (ws ++ ' ' :: (ns ++ '/' :: ds)) = ([], ws ++ ' ' :: (ns ++ '/' :: ds)) :=
    wsSpan_of_headNot _ hws
  have hwdall : ∀ c ∈ ws ++ ' ' :: (ns ++ '/' :: ds), c ∈ ws → isDigitChar c = true :=
    fun c _ hc => hwd c hc
  rcases hs with h | h | h <;> subst h
  · have e2 : signSpan (ws ++ ' ' :: (ns ++ '/' :: ds)) =
        (none, ws ++ ' ' :: (ns ++ '/' :: ds)) := by
      cases hcw : ws with
      | nil => exact absurd hcw hw
      | cons c t =>
        have hdc : isDigitChar c = true := hwd c (by simp [hcw])
        rw [List.cons_append]
        simp only [signSpan, digit_not_sign c hdc]
        simp
    simp only [Option.toList, List.nil_append, numberMatch, e1, e2, hmix]
  · simp only [Option.toList, numberMatch, List.cons_append, List.nil_append]
    rw [wsSpan_of_headNot ('+' :: (ws ++ ' ' :: (ns ++ '/' :: ds))) (by exact rfl)]
    simp [signSpan, e1, hmix]
  · simp only [Option.toList, numberMatch, List.cons_append, List.nil_append]
    rw [wsSpan_of_headNot ('-' :: (ws ++ ' ' :: (ns ++ '/' :: ds))) (by exact rfl)]
    simp [signSpan, e1, hmix]

lemma toList_mk (cs : List Char) : (String.mk cs).toList = cs := rfl

/-- Lemma: `mixedAlt` fails on `N/D`-shaped input: there is no whitespace after
the leading digit run. -/
lemma mixedAlt_fracInput (ns rest : List Char) (hn : ns ≠ [])
    (hnd : ∀ c ∈ ns, isDigitChar c = true) :
    mixedAlt (ns ++ '/' :: rest) = none := by
  have d1 : digitSpan (ns ++ '/' :: rest) = (ns, '/' :: rest) :=
    digitSpan_append ns _ hnd (by exact rfl)
  have w1 : wsSpan ('/' :: rest) = ([], '/' :: rest) :=
    wsSpan_of_headNot _ (by exact rfl)
  have hn' : ns.isEmpty = false := by cases ns with
    | nil => exact absurd rfl hn
    | cons c t => rfl
  simp only [mixedAlt, d1, hn', w1, Bool.false_eq_true, if_false, List.isEmpty_nil, if_true]

/-- Lemma: `fracAlt` on a well-formed `N/D` input captures the two digit
strings. -/
lemma fracAlt_form (ns ds : List Char)
    (hn : ns ≠ []) (hnd : ∀ c ∈ ns, isDigitChar c = true)
    (hd : ds ≠ []) (hdd : ∀ c ∈ ds, isDigitChar c = true) :
    fracAlt (ns ++ '/' :: ds) = some (.frac ns ds) := by
  have d1 : digitSpan (ns ++ '/' :: ds) = (ns, '/' :: ds) :=
    digitSpan_append ns _ hnd (by exact rfl)
  have d2 : digitSpan ds = (ds, []) := digitSpan_all ds hdd
  have hn' : ns.isEmpty = false := by cases ns with
    | nil => exact absurd rfl hn
    | cons c t => rfl
  have hd' : ds.isEmpty = false := by cases ds with
    | nil => exact absurd rfl hd
    | cons c t => rfl
  simp only [fracAlt, d1, hn', d2, hd', wsToEnd, wsSpan, List.takeWhile_nil,
    List.dropWhile_nil]
  simp

/-- Matching `MIXED_NUMBER_PATTERN` against a well-formed simple
fraction `N/D` lands in the second alternative. -/
lemma numberMatch_fracForm (ns ds : List Char)
    (hn : ns ≠ []) (hnd : ∀ c ∈ ns, isDigitChar c = true)
    (hd : ds ≠ []) (hdd : ∀ c ∈ ds, isDigitChar c = true) :
    numberMatch (ns ++ '/' :: ds) = some (none, .frac ns ds) := by
  have e1 : wsSpan (ns ++ '/' :: ds) = ([], ns ++ '/' :: ds) :=
    wsSpan_of_headNot _ (headNot_digits ns _ hn hnd)
  have e2 : signSpan (ns ++ '/' :: ds) = (none, ns ++ '/' :: ds) := by
    cases hcw : ns with
    | nil => exact absurd hcw hn
    | cons c t =>
      have hdc : isDigitChar c = true := hnd c (by simp [hcw])
      rw [List.cons_append]
      simp only [signSpan, digit_not_sign c hdc]
      simp
  simp only [numberMatch, e1, e2, mixedAlt_fracInput ns ds hn hnd,
    fracAlt_form ns ds hn hnd hd hdd]

/-- Claim C3: `parse_number` on a simple fraction `N/D` or a mixed
number `W N/D` whose denominator digits denote zero fails with the
invalid-number parse error (the zero test precedes any division; no
value is ever produced). -/
theorem parse_number_zero_denominator (ns ds : List Char) (hn : ns ≠ [])
    (hnd : ∀ c ∈ ns, isDigitChar c = true) (hd : ds ≠ [])
    (hdd : ∀ c ∈ ds, isDigitChar c = true) (hz : decimalValue ds = 0) :
    parse_number (String.mk (ns ++ '/' :: ds)) = .error .invalidNumber ∧
    ∀ ws : List Char, ws ≠ [] → (∀ c ∈ ws, isDigitChar c = true) →
      parse_number (String.mk (ws ++ ' ' :: (ns ++ '/' :: ds))) =
        .error .invalidNumber := by
  constructor
  · simp [parse_number, toList_mk, numberMatch_fracForm ns ds hn hnd hd hdd, hz]
  · intro ws hw hwd
    have hm := numberMatch_mixedForm none (Or.inl rfl) ws ns ds hw hwd hn hnd hd hdd
    simp only [Option.toList, List.nil_append] at hm
    simp [parse_number, toList_mk, hm, hz]

/-- Claim C3, witness: the two concrete inputs `1/0` and `1 1/0`. -/
theorem parse_number_zero_denominator_witness :
    parse_number "1/0" = .error .invalidNumber ∧
    parse_number "1 1/0" = .error .invalidNumber := by
  have h := parse_number_zero_denominator ['1'] ['0'] (by decide) (by decide)
    (by decide) (by decide) (by decide)
  exact ⟨h.1, h.2 ['1'] (by decide) (by decide)⟩

/-- Claim C6: on a well-formed mixed number `[sign]W N/D` with nonzero
denominator, `parse_number` returns the sign times
`float(W) + N/D`, every operation correctly rounded in binary64. -/
theorem parse_number_mixed_value (sgn : Option Char)
    (hs : sgn = none ∨ sgn = some '+' ∨ sgn = some '-')
    (ws ns ds : List Char) (hw : ws ≠ []) (hwd : ∀ c ∈ ws, isDigitChar c = true)
    (hn : ns ≠ []) (hnd : ∀ c ∈ ns, isDigitChar c = true)
    (hd : ds ≠ []) (hdd : ∀ c ∈ ds, isDigitChar c = true)
    (hden : decimalValue ds ≠ 0) :
    parse_number (String.mk (sgn.toList ++ ws ++ ' ' :: (ns ++ '/' :: ds))) =
      .ok ((if sgn = some '-' then (-1 : ℚ) else 1) *
        pyAdd (fl (decimalValue ws))
          (pyDiv (decimalValue ns) (decimalValue ds))) := by
  have hm := numberMatch_mixedForm sgn hs ws ns ds hw hwd hn hnd hd hdd
  rcases hs with h | h | h <;> subst h <;>
    simp only [Option.toList, List.nil_append, List.cons_append] at hm <;>
    simp [parse_number, toList_mk, hm, hden]

/-- Claim C6, witness: `parse_number "2 1/2"` evaluates to `2.5`. -/
theorem parse_number_mixed_value_witness : parse_number "2 1/2" = .ok (5/2) := by
  have h := parse_number_mixed_value none (Or.inl rfl) ['2'] ['1'] ['2'] (by decide)
    (by decide) (by decide) (by decide) (by decide) (by decide) (by decide)
  have e1 : decimalValue ['2'] = 2 := by decide
  have e2 : decimalValue ['1'] = 1 := by decide
  rw [e1, e2] at h
  simp only [Option.toList, List.nil_append, List.cons_append] at h
  rw [show ("2 1/2" : String) = String.mk ['2', ' ', '1', '/', '2'] from rfl, h]
  have f2 : fl ((2:ℕ) : ℚ) = 2 := by
    rw [show (((2:ℕ)) : ℚ) = 2 by norm_num]
    exact fl_eq_self 2 2 0 (by norm_num) (by norm_num)
  have fh : pyDiv ((1:ℕ) : ℚ) ((2:ℕ) : ℚ) = 1/2 := by
    rw [pyDiv, show (((1:ℕ)) : ℚ) / ((2:ℕ) : ℚ) = 1/2 by norm_num]
    exact fl_eq_self (1/2) 1 (-1) (by norm_num) (by norm_num)
  rw [f2, fh, pyAdd, show ((2:ℚ) + 1/2) = 5/2 by norm_num,
    fl_eq_self (5/2) 5 (-1) (by norm_num) (by norm_num)]
  norm_num
  simp

lemma pyMul_eval (a b c : ℚ) (m k : ℤ) (h1 : a * b = c) (h2 : c = (m : ℚ) * 2 ^ k)
    (h3 : |m| < 2 ^ 53) : pyMul a b = c := by rw [pyMul, h1, fl_eq_self c m k h2 h3]

lemma pyAdd_eval (a b c : ℚ) (m k : ℤ) (h1 : a + b = c) (h2 : c = (m : ℚ) * 2 ^ k)
    (h3 : |m| < 2 ^ 53) : pyAdd a b = c := by rw [pyAdd, h1, fl_eq_self c m k h2 h3]

lemma pyDiv_eval (a b c : ℚ) (m k : ℤ) (h1 : a / b = c) (h2 : c = (m : ℚ) * 2 ^ k)
    (h3 : |m| < 2 ^ 53) : pyDiv a b = c := by rw [pyDiv, h1, fl_eq_self c m k h2 h3]

lemma foldlM_accum_one (p1 : List Char × List Char) (v1 : ℚ)
    (h1 : accumPair 0 p1 = .ok v1) :
    [p1].foldlM accumPair (0:ℚ) = .ok v1 := by
  rw [show [p1].foldlM accumPair (0:ℚ) = accumPair 0 p1 >>= pure from rfl, h1]
  rfl

lemma foldlM_accum_two (p1 p2 : List Char × List Char) (v1 v2 : ℚ)
    (h1 : accumPair 0 p1 = .ok v1) (h2 : accumPair v1 p2 = .ok v2) :
    [p1, p2].foldlM accumPair (0:ℚ) = .ok v2 := by
  rw [show [p1, p2].foldlM accumPair (0:ℚ) =
    accumPair 0 p1 >>= fun x => accumPair x p2 >>= pure from rfl, h1]
  rw [show ((Except.ok v1 : Except ParseError ℚ) >>= fun x => accumPair x p2 >>= pure) =
    accumPair v1 p2 >>= pure from rfl, h2]
  rfl

/-- Claim C2: the pair scan of `convert_to_inches` finds both
`(value, unit)` pairs inside the single term `"5 feet 3 1/2 inches"`
and sums their inch conversions to exactly `63.5`, with no pre-split by
the caller. -/
theorem convert_to_inches_compound_term :
    convert_to_inches "5 feet 3 1/2 inches" = .ok (127/2) := by
  have key : convert_to_inches "5 feet 3 1/2 inches" =
      [("5".toList, "feet".toList), ("3 1/2".toList, "inches".toList)].foldlM
        accumPair (0:ℚ) := by rfl
  have a1 : accumPair 0 ("5".toList, "feet".toList) = .ok 60 := by
    rw [show accumPair 0 ("5".toList, "feet".toList) =
      .ok (pyAdd 0 (pyMul ((1:ℚ) * fl (decLiteralValue ['5'] none)) 12)) from rfl,
      show decLiteralValue ['5'] none = 5 from by
        simp [decLiteralValue, show decimalValue ['5'] = 5 from by decide],
      fl_eq_self 5 5 0 (by norm_num) (by norm_num),
      pyMul_eval (1 * 5) 12 60 60 0 (by norm_num) (by norm_num) (by norm_num),
      pyAdd_eval 0 60 60 60 0 (by norm_num) (by norm_num) (by norm_num)]
  have a2 : accumPair 60 ("3 1/2".toList, "inches".toList) = .ok (127/2) := by
    rw [show accumPair 60 ("3 1/2".toList, "inches".toList) =
      .ok (pyAdd 60 (pyMul ((1:ℚ) * pyAdd (fl (decimalValue ['3']))
        (pyDiv (decimalValue ['1']) (decimalValue ['2']))) 1)) from rfl,
      show decimalValue ['3'] = 3 from by decide,
      show decimalValue ['1'] = 1 from by decide,
      show decimalValue ['2'] = 2 from by decide]
    push_cast
    rw [fl_eq_self 3 3 0 (by norm_num) (by norm_num),
      pyDiv_eval 1 2 (1/2) 1 (-1) (by norm_num) (by norm_num) (by norm_num),
      pyAdd_eval 3 (1/2) (7/2) 7 (-1) (by norm_num) (by norm_num) (by norm_num),
      pyMul_eval (1 * (7/2)) 1 (7/2) 7 (-1) (by norm_num) (by norm_num) (by norm_num),
      pyAdd_eval 60 (7/2) (127/2) 127 (-1) (by norm_num) (by norm_num) (by norm_num)]
  rw [key, foldlM_accum_two _ _ _ _ a1 a2]

/-- Claim C7: on the term `"5 furlongs"` the pair scan finds no
`(value, unit)` pair ("furlongs" matches no unit alternative), the
whole term is then parsed as a bare number, which fails, so the result
is the typed invalid-number error — never a silent default to inches. -/
theorem convert_to_inches_furlongs :
    convert_to_inches "5 furlongs" = .error .invalidNumber := rfl

/-- Claim C9: the accumulation of `convert_to_inches` ranges over the
matched `(value, unit)` pairs only, so (a) `"5 inches 3 furlongs"`
yields `5.0` inches with the trailing `"3 furlongs"` silently ignored,
and (b) any two terms with at least one pair and the same matched pairs
convert identically, whatever their unmatched text. -/
theorem convert_to_inches_ignores_unmatched :
    convert_to_inches "5 inches 3 furlongs" = .ok 5 ∧
    ∀ t1 t2 : String, findPairs (pyStrip t1.toList) = findPairs (pyStrip t2.toList) →
      findPairs (pyStrip t1.toList) ≠ [] →
      convert_to_inches t1 = convert_to_inches t2 := by
  constructor
  · have key : convert_to_inches "5 inches 3 furlongs" =
        [("5".toList, "inches".toList)].foldlM accumPair (0:ℚ) := by rfl
    have a1 : accumPair 0 ("5".toList, "inches".toList) = .ok 5 := by
      rw [show accumPair 0 ("5".toList, "inches".toList) =
        .ok (pyAdd 0 (pyMul ((1:ℚ) * fl (decLiteralValue ['5'] none)) 1)) from rfl,
        show decLiteralValue ['5'] none = 5 from by
          simp [decLiteralValue, show decimalValue ['5'] = 5 from by decide],
        fl_eq_self 5 5 0 (by norm_num) (by norm_num),
        pyMul_eval (1 * 5) 1 5 5 0 (by norm_num) (by norm_num) (by norm_num),
        pyAdd_eval 0 5 5 5 0 (by norm_num) (by norm_num) (by norm_num)]
    rw [key, foldlM_accum_one _ _ a1]
  · intro t1 t2 heq hne
    rw [convert_to_inches, convert_to_inches, heq]
    have he : (findPairs (pyStrip t2.toList)).isEmpty = false := by
      rw [← heq]
      cases hc : findPairs (pyStrip t1.toList) with
      | nil => exact absurd hc hne
      | cons p ps => rfl
    rw [he]
    simp

/-- Claim C9, witness: two different terms with identical matched
pairs convert to the same result. -/
theorem convert_to_inches_ignores_unmatched_witness :
    convert_to_inches "5 inches 3 furlongs" = convert_to_inches "5 inches 42 things" :=
  convert_to_inches_ignores_unmatched.2 "5 inches 3 furlongs" "5 inches 42 things"
    (by decide) (by decide)

/-- Claim C8, counterexample: the unit alternation's `inches?` branch
lexically matches the five letters `inche` (with the optional `s`
dropped), a token that has no entry in `UNIT_FACTORS`, so the
"Unsupported unit" branch is reachable: `"5 inchex"` raises it. -/
theorem convert_to_inches_unsupported_reachable :
    convert_to_inches "5 inchex" = .error (.unsupportedUnit "inche") := rfl

/-- Claim C8 (amended): the unsupported-unit error branch is
reachable — the greedy optional letters of `inches?` and `feet?` let
the lexical pattern match the truncated spellings `inche` and `fee`,
which have no conversion factor, so `convert_to_inches` can raise its
"Unsupported unit" error. -/
theorem convert_to_inches_unsupported_truncated_spellings :
    (∃ term : String, convert_to_inches term = .error (.unsupportedUnit "inche")) ∧
    (∃ term : String, convert_to_inches term = .error (.unsupportedUnit "fee")) :=
  ⟨⟨"5 inchex", rfl⟩, ⟨"3 feex", rfl⟩⟩

lemma pySub_eval (a b c : ℚ) (m k : ℤ) (h1 : a - b = c) (h2 : c = (m : ℚ) * 2 ^ k)
    (h3 : |m| < 2 ^ 53) : pySub a b = c := by rw [pySub, h1, fl_eq_self c m k h2 h3]

lemma rne_zero (y : ℚ) (h1 : 0 ≤ y) (h2 : y ≤ 1/2) : rne y = 0 := by
  have hf : ⌊y⌋ = 0 := Int.floor_eq_zero_iff.mpr ⟨h1, by linarith⟩
  rw [rne, hf]
  push_cast
  split_ifs with a b c
  · rfl
  · linarith
  · rfl
  · exact absurd (dvd_zero 2) c

/-- Claim C10: a negative value at least `-1/32` has zero whole part
and a 1/16 numerator that rounds to zero, yet the sign is extracted
before the absolute value, so it is rendered as `-0"`. -/
theorem format_fractional_inches_negative_zero (v : ℚ)
    (h1 : -1/32 ≤ v) (h2 : v < 0) :
    format_fractional_inches v 16 = "-0\"" := by
  have habs : |v| = -v := abs_of_neg h2
  have hbound : -v ≤ 1/32 := by linarith
  have hpos : 0 ≤ -v := by linarith
  have hfloor : ⌊|v|⌋ = 0 := by
    rw [habs]
    exact Int.floor_eq_zero_iff.mpr ⟨hpos, by linarith⟩
  have hfl0 : fl ((0 : ℤ) : ℚ) = 0 := by push_cast; rw [fl_zero]
  have hsub : pySub |v| (fl ((0:ℤ) : ℚ)) = fl (-v) := by
    rw [hfl0, pySub, habs, sub_zero]
  have hflv_le : fl (-v) ≤ 1/32 := by
    have := fl_le_two_zpow (-v) (-5) hpos (by rw [show ((2:ℚ) ^ (-5 : ℤ)) = 1/32 by norm_num]; exact hbound)
    rw [show ((2:ℚ) ^ (-5 : ℤ)) = 1/32 by norm_num] at this
    exact this
  have hflv_nonneg : 0 ≤ fl (-v) := fl_nonneg _ hpos
  have hfl16 : fl ((16 : ℤ) : ℚ) = 16 := by
    push_cast
    exact fl_eq_self 16 16 0 (by norm_num) (by norm_num)
  have hmul_le : fl (fl (-v) * 16) ≤ 1/2 := by
    have := fl_le_two_zpow (fl (-v) * 16) (-1)
      (by positivity)
      (by rw [show ((2:ℚ) ^ (-1 : ℤ)) = 1/2 by norm_num]; nlinarith)
    rw [show ((2:ℚ) ^ (-1 : ℤ)) = 1/2 by norm_num] at this
    exact this
  have hmul_nonneg : 0 ≤ fl (fl (-v) * 16) := fl_nonneg _ (by positivity)
  have hnum : ffiNumerator v 16 = 0 := by
    rw [ffiNumerator, hfloor, hsub, pyMul, hfl16, pyRound]
    exact rne_zero _ hmul_nonneg hmul_le
  simp only [format_fractional_inches, hnum, hfloor, if_pos h2]
  norm_num
  rfl

/-- Claim C10, witness: `format_fractional_inches (-1/64) 16 = "-0\""`. -/
theorem format_fractional_inches_negative_zero_witness :
    format_fractional_inches (-1/64) 16 = "-0\"" :=
  format_fractional_inches_negative_zero (-1/64) (by norm_num) (by norm_num)

/-- The numerator computed for `287/32 = 8.96875` is `16`: the
fractional part `0.96875` times 16 is `15.5`, which rounds half-to-even
up to 16. -/
lemma ffiNumerator_8_96875 : ffiNumerator (287/32) 16 = 16 := by
  have habs : |(287/32 : ℚ)| = 287/32 := abs_of_nonneg (by norm_num)
  have hfloor : ⌊(287/32 : ℚ)⌋ = 8 := Int.floor_eq_iff.mpr (by norm_num)
  have hfl8 : fl ((8 : ℤ) : ℚ) = 8 := by
    push_cast
    exact fl_eq_self 8 8 0 (by norm_num) (by norm_num)
  have hfl16 : fl ((16 : ℤ) : ℚ) = 16 := by
    push_cast
    exact fl_eq_self 16 16 0 (by norm_num) (by norm_num)
  rw [ffiNumerator, habs, hfloor, hfl8, hfl16,
    pySub_eval (287/32) 8 (31/32) 31 (-5) (by norm_num) (by norm_num) (by norm_num),
    pyMul_eval (31/32) 16 (31/2) 31 (-1) (by norm_num) (by norm_num) (by norm_num),
    pyRound, rne, show ⌊(31/2 : ℚ)⌋ = 15 from Int.floor_eq_iff.mpr (by norm_num)]
  norm_num

/-- Claim C4: whenever the rounded 1/16 numerator reaches the
denominator, `format_fractional_inches` carries into the whole part and
renders no fraction; in particular `8.96875` renders as `9"`, never
`8 16/16"`. -/
theorem format_fractional_inches_carry :
    (∀ v : ℚ, ffiNumerator v 16 = 16 →
      format_fractional_inches v 16 =
        (if v < 0 then "-" else "") ++ toString (⌊|v|⌋ + 1) ++ "\"") ∧
    format_fractional_inches (287/32) 16 = "9\"" := by
  constructor
  · intro v h
    simp [format_fractional_inches, h]
  · have hcarry : format_fractional_inches (287/32) 16 =
        (if (287/32 : ℚ) < 0 then "-" else "") ++ toString (⌊|(287/32 : ℚ)|⌋ + 1) ++ "\"" := by
      simp [format_fractional_inches, ffiNumerator_8_96875]
    rw [hcarry, if_neg (by norm_num : ¬(287/32 : ℚ) < 0),
      show |(287/32 : ℚ)| = 287/32 from abs_of_nonneg (by norm_num),
      show ⌊(287/32 : ℚ)⌋ = 8 from Int.floor_eq_iff.mpr (by norm_num)]
    rfl

/-- Claim C4, witness: the carry hypothesis holds at `287/32` and the
general statement then renders `9"`. -/
theorem format_fractional_inches_carry_witness :
    format_fractional_inches (287/32) 16 =
      (if (287/32 : ℚ) < 0 then "-" else "") ++ toString (⌊|(287/32 : ℚ)|⌋ + 1) ++ "\"" :=
  format_fractional_inches_carry.1 (287/32) ffiNumerator_8_96875

lemma digitChar_isDigit (n : ℕ) (h : n < 10) : (Nat.digitChar n).isDigit = true := by
  interval_cases n <;> decide

lemma toDigitsCore_digits (fuel : ℕ) : ∀ (n : ℕ) (acc : List Char),
    (∀ c ∈ acc, c.isDigit = true) →
    ∀ c ∈ Nat.toDigitsCore 10 fuel n acc, c.isDigit = true := by
  induction fuel with
  | zero =>
    intro n acc hacc c hc
    simp only [Nat.toDigitsCore] at hc
    exact hacc c hc
  | succ f ih =>
    intro n acc hacc c hc
    simp only [Nat.toDigitsCore] at hc
    by_cases h0 : n / 10 = 0
    · rw [if_pos h0] at hc
      rcases List.mem_cons.mp hc with h1 | h1
      · exact h1 ▸ digitChar_isDigit _ (Nat.mod_lt _ (by norm_num))
      · exact hacc c h1
    · rw [if_neg h0] at hc
      refine ih (n / 10) _ ?_ c hc
      intro c2 hc2
      rcases List.mem_cons.mp hc2 with h1 | h1
      · exact h1 ▸ digitChar_isDigit _ (Nat.mod_lt _ (by norm_num))
      · exact hacc c2 h1

lemma natRepr_digit (n : ℕ) : ∀ c ∈ (Nat.repr n).toList, c.isDigit = true := by
  intro c hc
  have he : (Nat.repr n).toList = Nat.toDigitsCore 10 (n + 1) n [] := rfl
  rw [he] at hc
  exact toDigitsCore_digits (n + 1) n [] (by simp) c hc

lemma toString_int_chars (i : ℤ) :
    ∀ c ∈ (toString i).toList, c.isDigit = true ∨ c = '-' := by
  cases i with
  | ofNat m =>
    intro c hc
    have he : (toString (Int.ofNat m)).toList = (Nat.repr m).toList := rfl
    rw [he] at hc
    exact Or.inl (natRepr_digit m c hc)
  | negSucc m =>
    intro c hc
    have he : (toString (Int.negSucc m)).toList = '-' :: (Nat.repr (m + 1)).toList := rfl
    rw [he] at hc
    rcases List.mem_cons.mp hc with h1 | h1
    · exact Or.inr h1
    · exact Or.inl (natRepr_digit (m + 1) c h1)

lemma no_slash_toString_int (i : ℤ) : '/' ∉ (toString i).toList := by
  intro h
  rcases toString_int_chars i '/' h with h1 | h1
  · exact absurd h1 (by decide)
  · exact absurd h1 (by decide)

lemma toList_append (a b : String) : (a ++ b).toList = a.toList ++ b.toList := rfl

lemma no_slash_plain (sign : String) (hs : sign = "-" ∨ sign = "") (w : ℤ) :
    '/' ∉ (sign ++ toString w ++ "\"").toList := by
  intro h
  rw [toList_append, toList_append] at h
  rcases List.mem_append.mp h with h1 | h1
  · rcases List.mem_append.mp h1 with h2 | h2
    · rcases hs with h3 | h3 <;> subst h3 <;> exact absurd h2 (by decide)
    · exact no_slash_toString_int w h2
  · exact absurd h1 (by decide)

/-- The numerator computed for `17/2 = 8.5` is `8`. -/
lemma ffiNumerator_8_5 : ffiNumerator (17/2) 16 = 8 := by
  have habs : |(17/2 : ℚ)| = 17/2 := abs_of_nonneg (by norm_num)
  have hfloor : ⌊(17/2 : ℚ)⌋ = 8 := Int.floor_eq_iff.mpr (by norm_num)
  have hfl8 : fl ((8 : ℤ) : ℚ) = 8 := by
    push_cast
    exact fl_eq_self 8 8 0 (by norm_num) (by norm_num)
  have hfl16 : fl ((16 : ℤ) : ℚ) = 16 := by
    push_cast
    exact fl_eq_self 16 16 0 (by norm_num) (by norm_num)
  rw [ffiNumerator, habs, hfloor, hfl8, hfl16,
    pySub_eval (17/2) 8 (1/2) 1 (-1) (by norm_num) (by norm_num) (by norm_num),
    pyMul_eval (1/2) 16 8 8 0 (by norm_num) (by norm_num) (by norm_num),
    pyRound, show ((8:ℚ)) = ((8:ℤ) : ℚ) by norm_num, rne_intCast]

/-- Claim C5: whenever `format_fractional_inches` renders a fraction,
the rendered numerator and denominator are the computed pair divided by
their greatest common divisor — coprime, with the denominator a
positive divisor of 16 — and `8.5` renders as `8 1/2"`, never
`8 8/16"`. -/
theorem format_fractional_inches_lowest_terms :
    (∀ v : ℚ, '/' ∈ (format_fractional_inches v 16).toList →
      ∃ (s : String) (n d : ℤ), format_fractional_inches v 16 =
          s ++ toString n ++ "/" ++ toString d ++ "\"" ∧
        Int.gcd n d = 1 ∧ d ∣ 16 ∧ 0 < d) ∧
    format_fractional_inches (17/2) 16 = "8 1/2\"" := by
  constructor
  · intro v hmem
    by_cases h16 : ffiNumerator v 16 = 16
    · exfalso
      have hout : format_fractional_inches v 16 =
          (if v < 0 then "-" else "") ++ toString (⌊|v|⌋ + 1) ++ "\"" := by
        simp [format_fractional_inches, h16]
      rw [hout] at hmem
      exact no_slash_plain _ (by split_ifs <;> simp) _ hmem
    by_cases h0 : ffiNumerator v 16 = 0
    · exfalso
      have hout : format_fractional_inches v 16 =
          (if v < 0 then "-" else "") ++ toString ⌊|v|⌋ ++ "\"" := by
        simp [format_fractional_inches, h16, h0]
      rw [hout] at hmem
      exact no_slash_plain _ (by split_ifs <;> simp) _ hmem
    · set N := ffiNumerator v 16 with hN
      have hgpos : 0 < Int.gcd N 16 := Int.gcd_pos_iff.mpr (Or.inr (by norm_num))
      have hgpos' : (0:ℤ) < (Int.gcd N 16 : ℤ) := by exact_mod_cast hgpos
      have hdvd16 : ((Int.gcd N 16 : ℤ)) ∣ 16 := Int.gcd_dvd_right
      have hfdN : N.fdiv (Int.gcd N 16 : ℤ) = N / (Int.gcd N 16 : ℤ) :=
        Int.fdiv_eq_ediv _ hgpos'.le
      have hfd16 : (16:ℤ).fdiv (Int.gcd N 16 : ℤ) = 16 / (Int.gcd N 16 : ℤ) :=
        Int.fdiv_eq_ediv _ hgpos'.le
      have hcop : Int.gcd (N / (Int.gcd N 16 : ℤ)) (16 / (Int.gcd N 16 : ℤ)) = 1 :=
        Int.gcd_div_gcd_div_gcd hgpos
      have hmul : 16 / (Int.gcd N 16 : ℤ) * (Int.gcd N 16 : ℤ) = 16 :=
        Int.ediv_mul_cancel hdvd16
      have h16div : (16 / (Int.gcd N 16 : ℤ)) ∣ 16 :=
        ⟨(Int.gcd N 16 : ℤ), hmul.symm⟩
      have hdpos : 0 < 16 / (Int.gcd N 16 : ℤ) := by nlinarith [hmul, hgpos']
      by_cases hw : ⌊|v|⌋ = 0
      · refine ⟨(if v < 0 then "-" else ""), N.fdiv (Int.gcd N 16 : ℤ),
          (16:ℤ).fdiv (Int.gcd N 16 : ℤ), ?_, ?_, ?_, ?_⟩
        · simp [format_fractional_inches, ← hN, h16, h0, hw]
        · rw [hfdN, hfd16]; exact hcop
        · rw [hfd16]; exact h16div
        · rw [hfd16]; exact hdpos
      · refine ⟨(if v < 0 then "-" else "") ++ toString ⌊|v|⌋ ++ " ",
          N.fdiv (Int.gcd N 16 : ℤ), (16:ℤ).fdiv (Int.gcd N 16 : ℤ), ?_, ?_, ?_, ?_⟩
        · simp [format_fractional_inches, ← hN, h16, h0, hw]
        · rw [hfdN, hfd16]; exact hcop
        · rw [hfd16]; exact h16div
        · rw [hfd16]; exact hdpos
  · have habs : |(17/2 : ℚ)| = 17/2 := abs_of_nonneg (by norm_num)
    have hfloor : ⌊(17/2 : ℚ)⌋ = 8 := Int.floor_eq_iff.mpr (by norm_num)
    have hsign : ¬((17/2 : ℚ) < 0) := by norm_num
    simp [format_fractional_inches, ffiNumerator_8_5, habs, hfloor, hsign]
    rfl

/-- Claim C5, witness: `17/4 = 4.25` renders a fraction, and the
general statement produces its lowest-terms decomposition. -/
theorem format_fractional_inches_lowest_terms_witness :
    ∃ (s : String) (n d : ℤ), format_fractional_inches (17/4) 16 =
        s ++ toString n ++ "/" ++ toString d ++ "\"" ∧
      Int.gcd n d = 1 ∧ d ∣ 16 ∧ 0 < d := by
  have habs : |(17/4 : ℚ)| = 17/4 := abs_of_nonneg (by norm_num)
  have hfloor : ⌊(17/4 : ℚ)⌋ = 4 := Int.floor_eq_iff.mpr (by norm_num)
  have hfl4 : fl ((4 : ℤ) : ℚ) = 4 := by
    push_cast
    exact fl_eq_self 4 4 0 (by norm_num) (by norm_num)
  have hfl16 : fl ((16 : ℤ) : ℚ) = 16 := by
    push_cast
    exact fl_eq_self 16 16 0 (by norm_num) (by norm_num)
  have hffi : ffiNumerator (17/4) 16 = 4 := by
    rw [ffiNumerator, habs, hfloor, hfl4, hfl16,
      pySub_eval (17/4) 4 (1/4) 1 (-2) (by norm_num) (by norm_num) (by norm_num),
      pyMul_eval (1/4) 16 4 4 0 (by norm_num) (by norm_num) (by norm_num),
      pyRound, show ((4:ℚ)) = ((4:ℤ) : ℚ) by norm_num, rne_intCast]
  have hsign : ¬((17/4 : ℚ) < 0) := by norm_num
  have hout : format_fractional_inches (17/4) 16 = "4 1/4\"" := by
    simp [format_fractional_inches, hffi, habs, hfloor, hsign]
    rfl
  exact format_fractional_inches_lowest_terms.1 (17/4) (by rw [hout]; decide)

/-- The binary64 value of the literal `25.4`: it is not exactly
representable; the nearest double is `7149464408450662 / 2^48`,
slightly below `25.4`. -/
lemma MM_PER_INCH_eq : MM_PER_INCH = 7149464408450662 / 281474976710656 := by
  rw [MM_PER_INCH]
  have hf : ⌊(127/5 : ℚ) * 2 ^ ((52:ℤ) - 4)⌋ = 7149464408450662 :=
    Int.floor_eq_iff.mpr (by norm_num)
  have h3 : rne ((127/5 : ℚ) * 2 ^ ((52:ℤ) - 4)) = 7149464408450662 := by
    rw [rne, hf]
    norm_num
  rw [fl_eq_of (127/5) 4 7149464408450662 (by norm_num) (by norm_num) h3]
  norm_num

/-- Product `7.5 * float(25.4)` rounds (up, to the even significand) to exactly
`190.5` in binary64. -/
lemma pyMul_7_5_MM : pyMul (15/2) MM_PER_INCH = 381/2 := by
  rw [pyMul, MM_PER_INCH_eq,
    show ((15:ℚ)/2 * (7149464408450662 / 281474976710656)) =
      107241966126759930 / 562949953421312 by norm_num]
  have hf : ⌊(107241966126759930 / 562949953421312 : ℚ) * 2 ^ ((52:ℤ) - 7)⌋ =
      6702622882922495 := Int.floor_eq_iff.mpr (by norm_num)
  have h3 : rne ((107241966126759930 / 562949953421312 : ℚ) * 2 ^ ((52:ℤ) - 7)) =
      6702622882922496 := by
    rw [rne, hf]
    norm_num
  rw [fl_eq_of _ 7 6702622882922496 (by norm_num) (by norm_num) h3]
  norm_num

/-- Claim C1, counterexample: at `7.5` inches the product is exactly
`190.5` mm, which Python's round (half to even) renders as `"190 mm"`,
while the claimed round-half-away-from-zero would render `"191 mm"`. -/
theorem format_millimeters_half_away_counterexample :
    format_millimeters (15/2) MM_PER_INCH = "190 mm" ∧
    toString (specRoundHalfAwayFromZero ((15/2) * (25.4 : ℚ))) ++ " mm" = "191 mm" ∧
    format_millimeters (15/2) MM_PER_INCH ≠
      toString (specRoundHalfAwayFromZero ((15/2) * (25.4 : ℚ))) ++ " mm" := by
  have h1 : format_millimeters (15/2) MM_PER_INCH = "190 mm" := by
    rw [format_millimeters, pyMul_7_5_MM, pyRound, rne,
      show ⌊(381/2 : ℚ)⌋ = 190 from Int.floor_eq_iff.mpr (by norm_num)]
    norm_num
    rfl
  have h2 : toString (specRoundHalfAwayFromZero ((15/2) * (25.4 : ℚ))) ++ " mm" =
      "191 mm" := by
    rw [specRoundHalfAwayFromZero]
    norm_num
    rfl
  exact ⟨h1, h2, by rw [h1, h2]; decide⟩

lemma rne_eq_specRoundHalfToEven (x : ℚ) : rne x = specRoundHalfToEven x := by
  rcases lt_trichotomy (x - ⌊x⌋) (1/2) with h | h | h
  · rw [rne, specRoundHalfToEven, if_pos h, if_neg (by linarith), if_pos h]
  · rw [rne, specRoundHalfToEven, if_neg (by linarith), if_neg (by linarith), if_pos h]
  · rw [rne, specRoundHalfToEven, if_neg (by linarith), if_pos h, if_neg (by linarith),
      if_neg (by linarith)]

/-- Claim C1 (amended): `format_millimeters` multiplies by the binary64
image of `25.4` and rounds the product to the nearest integer with ties
to even (Python's native `round`), then appends `" mm"`. -/
theorem format_millimeters_rounds_half_to_even (v : ℚ) :
    format_millimeters v MM_PER_INCH =
      toString (specRoundHalfToEven (pyMul v MM_PER_INCH)) ++ " mm" := by
  rw [format_millimeters, pyRound, rne_eq_specRoundHalfToEven]

end SumLengths
